import Mathlib

/-!
Shallow embedding of the macOS kext visualization tool
(`analyze_kexts.py`, `compare_kexts.py`, `host_kext/analyze_kext_only.py`).

The plist decoder is modelled by the `PValue` type; filesystem traversal and
XML/JSON serialization are external collaborators and are not modelled.
Graph construction is modelled as the list of edges `create_graphml` would
emit, together with the `kexts` mapping serving as the node set.
-/

namespace KextViz

/-- Decoded property-list value, the input shape of `parse_plist_file`. -/
inductive PValue where
  | str : String → PValue
  | int : Int → PValue
  | bool : Bool → PValue
  | arr : List PValue → PValue
  | dict : List (String × PValue) → PValue

/-- Python substring test over character lists (`needle in hay`). -/
def occursIn (needle : List Char) : List Char → Bool
  | [] => needle.isEmpty
  | c :: rest => needle.isPrefixOf (c :: rest) || occursIn needle rest

/-- Python `needle in hay` on strings. -/
def inStr (needle hay : String) : Bool := occursIn needle.data hay.data

/-- Python `s.lower()` (ASCII, which is all the rule list uses). -/
def strLower (s : String) : String := String.mk (s.data.map Char.toLower)

/-- Python truthiness of a decoded plist value (`if result['provides']`). -/
def pvTruthy : PValue → Bool
  | .str s => s ≠ ""
  | .int n => n ≠ 0
  | .bool b => b
  | .arr xs => !xs.isEmpty
  | .dict kvs => !kvs.isEmpty

/-- Dual-shape coercion used for `OSBundleRequirements` and
`OSBundleLibraries`: a mapping yields its keys in encounter order, a
sequence is used as-is, anything else (including a missing field, whose
`data.get` default is the empty mapping) yields the empty sequence. -/
def coerceSeqField : Option PValue → List PValue
  | some (.dict kvs) => kvs.map (fun kv => PValue.str kv.1)
  | some (.arr xs) => xs
  | _ => []

/-- Helper for the last dot-separated segment: walks the characters,
restarting the current segment after each dot. -/
def lastSegAux : List Char → List Char → List Char
  | [], cur => cur
  | c :: rest, cur =>
    if c = '.' then lastSegAux rest [] else lastSegAux rest (cur ++ [c])

/-- Python `s.split('.')[-1]` (split never returns an empty list, so the
last element is the segment after the final dot, or the whole string). -/
def lastDotSegment (s : String) : String := String.mk (lastSegAux s.data [])

/-- The `CFBundleIdentifier` fetch: missing defaults to `""`; a present
non-string value makes the subsequent `.split('.')` raise, failing the
whole record. -/
def bundleIdField : Option PValue → Option String
  | none => some ""
  | some (.str s) => some s
  | some _ => none

/-- The `IOProviderClass` normalization: a sequence is kept, a truthy
scalar becomes a singleton, anything falsy or missing becomes empty. -/
def providesField : Option PValue → List PValue
  | some (.arr xs) => xs
  | some v => if pvTruthy v then [v] else []
  | none => []

/-- Python hashability of a decoded value (needed by `list(set(...))`). -/
def pvHashable : PValue → Bool
  | .arr _ => false
  | .dict _ => false
  | _ => true

/-- Equality on hashable (atomic) decoded values, used to model the set
dedup of `iokit_classes`; the source runtime's numeric/bool cross-type
equality is not modelled, no atomic class value mixes those types. -/
def pvAtomBeq : PValue → PValue → Bool
  | .str a, .str b => a == b
  | .int a, .int b => a == b
  | .bool a, .bool b => a == b
  | _, _ => false

/-- First-occurrence dedup over atomic values, modelling `list(set(l))`
(the set iteration order of the source runtime is unspecified; the model
fixes first-occurrence order). -/
def dedupAtomsAux : List PValue → List PValue → List PValue
  | [], _ => []
  | x :: xs, seen =>
    if seen.any (pvAtomBeq x) then dedupAtomsAux xs seen
    else x :: dedupAtomsAux xs (x :: seen)

/-- Entry point of the dedup model. -/
def dedupAtoms (l : List PValue) : List PValue := dedupAtomsAux l []

/-- The `IOKitPersonalities` loop body: for each entry, evaluate
`'IOClass' in value`; on a mapping this is key membership followed by
`value.get('IOClass')`; on a string it is substring search and a hit then
raises on `.get`; on a sequence it is element membership and a hit then
raises; on any other value the membership test itself raises.  `none`
models the exception that aborts the whole record. -/
def iokitExtract : List (String × PValue) → Option (List PValue)
  | [] => some []
  | (_, v) :: rest =>
    match v with
    | .dict d =>
      match d.lookup "IOClass" with
      | some x => (iokitExtract rest).map (fun tl => x :: tl)
      | none => iokitExtract rest
    | .str s => if inStr "IOClass" s then none else iokitExtract rest
    | .arr xs =>
      if xs.any (fun x => match x with | .str t => t == "IOClass" | _ => false) then none
      else iokitExtract rest
    | _ => none

/-- The `iokit_classes` field: a non-mapping personalities value leaves the
collected list empty; a mapping is walked by `iokitExtract`; the final
`list(set(...))` raises on unhashable members. -/
def iokitClasses : Option PValue → Option (List PValue)
  | some (.dict kvs) =>
    match iokitExtract kvs with
    | some services =>
      if services.all pvHashable then some (dedupAtoms services) else none
    | none => none
  | _ => some []

/-- Normalized Extension Record, the value `parse_plist_file` returns. -/
structure KextRecord where
  path : String
  bundle_id : String
  name : PValue
  version : PValue
  executable : PValue
  kext_name : String
  source_type : String
  dependencies : List PValue
  libraries : List PValue
  iokit_classes : List PValue
  provides : List PValue

/-- Model of `parse_plist_file` applied to an already-decoded plist value:
a non-mapping top level raises on `.get`, a non-string bundle identifier
raises on `.split`, and a malformed personalities entry raises inside the
IOKit loop; every raise is caught and yields `none`. -/
def parse_plist_file (path : String) (data : PValue) : Option KextRecord :=
  match data with
  | .dict d =>
    match bundleIdField (d.lookup "CFBundleIdentifier") with
    | none => none
    | some bid =>
      match iokitClasses (d.lookup "IOKitPersonalities") with
      | none => none
      | some classes =>
        some {
          path := path
          bundle_id := bid
          name := (d.lookup "CFBundleName").getD (.str "")
          version := (d.lookup "CFBundleVersion").getD (.str "")
          executable := (d.lookup "CFBundleExecutable").getD (.str "")
          kext_name := lastDotSegment bid
          source_type := "kext"
          dependencies := coerceSeqField (d.lookup "OSBundleRequirements")
          libraries := coerceSeqField (d.lookup "OSBundleLibraries")
          iokit_classes := classes
          provides := providesField (d.lookup "IOProviderClass") }
  | _ => none

/-- Insertion into the `kexts` dictionary: an existing key keeps its
position and gets the new value, a new key is appended (Python dict
semantics, last write wins). -/
def insertRecord : List (String × KextRecord) → String → KextRecord → List (String × KextRecord)
  | [], k, v => [(k, v)]
  | p :: rest, k, v => if p.1 = k then (k, v) :: rest else p :: insertRecord rest k v

/-- One iteration of the scan loop: parse, skip on failure or on a falsy
(empty) bundle id, otherwise store under the bundle id. -/
def scanStep (acc : List (String × KextRecord)) (p : String × PValue) : List (String × KextRecord) :=
  match parse_plist_file p.1 p.2 with
  | some r => if r.bundle_id ≠ "" then insertRecord acc r.bundle_id r else acc
  | none => acc

/-- Model of `scan_kexts_only` applied to the decoded (path, plist) pairs
the directory walk found, in walk order. -/
def scan_kexts_only (ps : List (String × PValue)) : List (String × KextRecord) :=
  ps.foldl scanStep []

/-- Edge kinds of the dependency graph. -/
inductive EdgeKind where
  | depends
  | uses_library
deriving DecidableEq

/-- One retained edge of the GraphML output (pre-sanitization ids). -/
structure Edge where
  source : String
  target : String
  kind : EdgeKind
deriving DecidableEq

/-- The accumulator of the edge loop: emitted edges plus the
`edges_added` set, modelled as a list of (source, target) tuples. -/
abbrev EdgeAcc := List Edge × List (String × String)

/-- One iteration of an edge loop body: `if dep in kexts and
(bundle_id, dep) not in edges_added`.  A non-string entry never equals a
string key, so it adds nothing. -/
def refStep (keys : List String) (src : String) (kind : EdgeKind) (acc : EdgeAcc) (dep : PValue) : EdgeAcc :=
  match dep with
  | .str d =>
    if d ∈ keys ∧ (src, d) ∉ acc.2 then
      (acc.1 ++ [{ source := src, target := d, kind := kind }], acc.2 ++ [(src, d)])
    else acc
  | _ => acc

/-- The loop over one record's reference list. -/
def processRefs (keys : List String) (src : String) (kind : EdgeKind) (refs : List PValue) (acc : EdgeAcc) : EdgeAcc :=
  refs.foldl (refStep keys src kind) acc

/-- The outer loop of `create_graphml`: for each kext, dependencies first,
then libraries, sharing one `edges_added` set. -/
def graphFold (keys : List String) : List (String × KextRecord) → EdgeAcc → EdgeAcc
  | [], acc => acc
  | p :: rest, acc =>
    graphFold keys rest
      (processRefs keys p.1 .uses_library p.2.libraries
        (processRefs keys p.1 .depends p.2.dependencies acc))

/-- Dependency graph: the node mapping plus the retained edges. -/
structure Graph where
  nodes : List (String × KextRecord)
  edges : List Edge

/-- Model of `create_graphml`: one node per entry of `kexts`, then the
edge loops over dependencies and libraries. -/
def create_graphml (kexts : List (String × KextRecord)) : Graph :=
  { nodes := kexts
    edges := (graphFold (kexts.map Prod.fst) kexts ([], [])).1 }

/-- The fixed category enumeration. -/
inductive Category where
  | graphics
  | audio
  | usb
  | bluetooth
  | apple_specific
  | intel
  | amd
  | other
deriving DecidableEq

/-- The enumeration as a list, in rule order. -/
def allCategories : List Category :=
  [.graphics, .audio, .usb, .bluetooth, .apple_specific, .intel, .amd, .other]

/-- The cascading-conditional classifier shared by `analyze_kexts` and
`generate_statistics`, over the raw name and bundle id. -/
def categorize (bundle_id nameRaw : String) : Category :=
  let name := strLower nameRaw
  let bundle_lower := strLower bundle_id
  if inStr "graphics" name || inStr "metal" name || inStr "gpu" name || inStr "framebuffer" name then .graphics
  else if inStr "audio" name || inStr "hda" bundle_lower then .audio
  else if inStr "usb" name || inStr "usb" bundle_lower then .usb
  else if inStr "bluetooth" name || inStr "bt" bundle_lower then .bluetooth
  else if inStr "apple" bundle_lower then .apple_specific
  else if inStr "intel" name || inStr "intel" bundle_lower then .intel
  else if inStr "amd" name then .amd
  else .other

/-- Record view of one entry of a loaded kext dataset as `compare_kexts`
reads it: each field is fetched with `.get`, so each may be absent. -/
structure JKext where
  name : Option String := none
  version : Option String := none
  dependencies : List String := []
  libraries : List String := []

/-- The classifier call site in `analyze_kexts`: `kext.get('name', '')`. -/
def categorizeEntry (bundle_id : String) (k : JKext) : Category :=
  categorize bundle_id (k.name.getD "")

/-- One increment of the category tally dictionary. -/
def bumpCat (t : Category → Nat) (c : Category) : Category → Nat :=
  fun c2 => if c2 = c then t c2 + 1 else t c2

/-- The category tally loop of `analyze_kexts`. -/
def catTally (data : List (String × JKext)) : Category → Nat :=
  data.foldl (fun t p => bumpCat t (categorizeEntry p.1 p.2)) (fun _ => 0)

/-- Sum of a tally over all eight categories. -/
def tallySum (t : Category → Nat) : Nat := (allCategories.map t).sum

/-- The version fetch: `kext.get('version', 'N/A')`. -/
def versionOf (k : JKext) : String := k.version.getD "N/A"

/-- One iteration of the version-count dictionary update
(`versions[version] = versions.get(version, 0) + 1`): an existing key is
incremented in place, a new key is appended with count 1. -/
def bumpAssoc : List (String × Nat) → String → List (String × Nat)
  | [], v => [(v, 1)]
  | (k, n) :: rest, v =>
    if k = v then (k, n + 1) :: rest else (k, n) :: bumpAssoc rest v

/-- The version histogram loop over the dataset's records. -/
def versionTally (ks : List JKext) : List (String × Nat) :=
  ks.foldl (fun acc k => bumpAssoc acc (versionOf k)) []

/-- Count lookup in the histogram (0 when absent). -/
def lookupCount : List (String × Nat) → String → Nat
  | [], _ => 0
  | (k, n) :: rest, v => if k = v then n else lookupCount rest v

/-- Stable descending insertion by count, modelling the stable
`sorted(..., key=count, reverse=True)`. -/
def insertByCount (x : String × Nat) : List (String × Nat) → List (String × Nat)
  | [] => [x]
  | y :: ys => if y.2 ≤ x.2 then x :: y :: ys else y :: insertByCount x ys

/-- Stable descending sort by count. -/
def sortByCountDesc : List (String × Nat) → List (String × Nat)
  | [] => []
  | x :: xs => insertByCount x (sortByCountDesc xs)

/-- The analysis record `analyze_kexts` returns. -/
structure AnalysisResult where
  total : Nat
  categories : Category → Nat
  total_libraries : Nat
  total_dependencies : Nat
  unique_versions : Nat
  top_versions : List (String × Nat)

/-- Model of `analyze_kexts` over a loaded dataset. -/
def analyze_kexts (data : List (String × JKext)) : AnalysisResult :=
  { total := data.length
    categories := catTally data
    total_libraries := (data.map (fun p => p.2.libraries.length)).sum
    total_dependencies := (data.map (fun p => p.2.dependencies.length)).sum
    unique_versions := (versionTally (data.map Prod.snd)).length
    top_versions := (sortByCountDesc (versionTally (data.map Prod.snd))).take 5 }

/-- Bundle-id list of a loaded dataset. -/
def idsOf (data : List (String × JKext)) : List String := data.map Prod.fst

/-- The intersection `vmapple_bundles & host_bundles` of
`compare_kext_datasets`, as the members of A also in B. -/
def commonBundles (a b : List (String × JKext)) : List String :=
  (idsOf a).filter (fun k => decide (k ∈ idsOf b))

/-- The difference `vmapple_bundles - host_bundles`. -/
def onlyInA (a b : List (String × JKext)) : List String :=
  (idsOf a).filter (fun k => decide (k ∉ idsOf b))

/-- The difference `host_bundles - vmapple_bundles`. -/
def onlyInB (a b : List (String × JKext)) : List String :=
  (idsOf b).filter (fun k => decide (k ∉ idsOf a))

/-- Ordered (source, target) pair of an edge. -/
def edgePair (e : Edge) : String × String := (e.source, e.target)

/-- Invariant of the edge-loop accumulator: the dedup set mirrors the
ordered pairs of the emitted edges, holds no duplicate, and every emitted
edge has both endpoints among the node keys. -/
def accWf (keys : List String) (acc : EdgeAcc) : Prop :=
  acc.2 = acc.1.map edgePair ∧ acc.2.Nodup ∧
    ∀ e ∈ acc.1, e.source ∈ keys ∧ e.target ∈ keys

theorem refStep_wf (keys : List String) (src : String) (kind : EdgeKind)
    (acc : EdgeAcc) (dep : PValue) (hsrc : src ∈ keys) (h : accWf keys acc) :
    accWf keys (refStep keys src kind acc dep) := by
  obtain ⟨h1, h2, h3⟩ := h
  cases dep with
  | str d =>
    simp only [refStep]
    split
    · rename_i hc
      obtain ⟨hd, hnot⟩ := hc
      refine ⟨?_, ?_, ?_⟩
      · simp [edgePair, h1]
      · rw [h1] at hnot h2 ⊢
        simp [List.nodup_append, h2, List.disjoint_singleton, hnot, edgePair]
      · intro e he
        rcases List.mem_append.mp he with h' | h'
        · exact h3 e h'
        · simp only [List.mem_singleton] at h'
          subst h'
          exact ⟨hsrc, hd⟩
    · exact ⟨h1, h2, h3⟩
  | int n => exact ⟨h1, h2, h3⟩
  | bool b => exact ⟨h1, h2, h3⟩
  | arr xs => exact ⟨h1, h2, h3⟩
  | dict kvs => exact ⟨h1, h2, h3⟩

theorem processRefs_wf (keys : List String) (src : String) (kind : EdgeKind) :
    ∀ (refs : List PValue) (acc : EdgeAcc), src ∈ keys → accWf keys acc →
      accWf keys (processRefs keys src kind refs acc)
  | [], _, _, h => h
  | d :: rest, acc, hsrc, h =>
    processRefs_wf keys src kind rest (refStep keys src kind acc d) hsrc
      (refStep_wf keys src kind acc d hsrc h)

theorem graphFold_wf (keys : List String) :
    ∀ (l : List (String × KextRecord)) (acc : EdgeAcc),
      (∀ p ∈ l, p.1 ∈ keys) → accWf keys acc → accWf keys (graphFold keys l acc)
  | [], _, _, h => h
  | p :: rest, acc, hl, h =>
    graphFold_wf keys rest _ (fun q hq => hl q (List.mem_cons_of_mem _ hq))
      (processRefs_wf keys p.1 .uses_library p.2.libraries _
        (hl p (List.mem_cons_self _ _))
        (processRefs_wf keys p.1 .depends p.2.dependencies acc
          (hl p (List.mem_cons_self _ _)) h))

theorem create_graphml_wf (kexts : List (String × KextRecord)) :
    accWf (kexts.map Prod.fst) (graphFold (kexts.map Prod.fst) kexts ([], [])) :=
  graphFold_wf (kexts.map Prod.fst) kexts ([], [])
    (fun p hp => List.mem_map_of_mem Prod.fst hp)
    ⟨rfl, List.nodup_nil, by simp⟩

/-- Record with a dependency on `com.b`, for the mutual-dependency input. -/
def c1RecA : KextRecord :=
  { path := "a", bundle_id := "com.a", name := .str "", version := .str "",
    executable := .str "", kext_name := "a", source_type := "kext",
    dependencies := [.str "com.b"], libraries := [], iokit_classes := [], provides := [] }

/-- Record with a dependency back on `com.a`. -/
def c1RecB : KextRecord :=
  { path := "b", bundle_id := "com.b", name := .str "", version := .str "",
    executable := .str "", kext_name := "b", source_type := "kext",
    dependencies := [.str "com.a"], libraries := [], iokit_classes := [], provides := [] }

/-- Two kexts depending on each other. -/
def c1Kexts : List (String × KextRecord) := [("com.a", c1RecA), ("com.b", c1RecB)]

/-- C1 counterexample: over two kexts that depend on each other, the graph
retains two distinct edges between the same two ids (opposite directions),
so the pair-dedup is not per unordered pair: the `edges_added` set keys on
the ordered (source, target) tuple. -/
theorem c1_unordered_dedup_counterexample :
    (create_graphml c1Kexts).edges =
      [{ source := "com.a", target := "com.b", kind := .depends },
       { source := "com.b", target := "com.a", kind := .depends }] ∧
    ({ source := "com.a", target := "com.b", kind := .depends } : Edge).source =
      ({ source := "com.b", target := "com.a", kind := .depends } : Edge).target ∧
    ({ source := "com.a", target := "com.b", kind := .depends } : Edge).target =
      ({ source := "com.b", target := "com.a", kind := .depends } : Edge).source ∧
    ({ source := "com.a", target := "com.b", kind := .depends } : Edge) ≠
      ({ source := "com.b", target := "com.a", kind := .depends } : Edge) := by
  decide

/-- C1 amended: for every built graph, at most one edge is retained per
ordered (source_id, target_id) pair — once any edge (dependency or
library) has claimed the ordered pair, no further edge from that source to
that target is materialized; the first kind encountered wins. -/
theorem c1_ordered_pair_dedup (kexts : List (String × KextRecord)) :
    ((create_graphml kexts).edges.map edgePair).Nodup := by
  have h := create_graphml_wf kexts
  have h2 := h.2.1
  rw [h.1] at h2
  exact h2

/-- C2: every edge of a built graph has both its source id and its target
id among the keys of the nodes mapping; a dependencies or libraries entry
that is not a node id never produces an edge. -/
theorem c2_edge_endpoints_in_nodes (kexts : List (String × KextRecord)) (e : Edge)
    (he : e ∈ (create_graphml kexts).edges) :
    e.source ∈ (create_graphml kexts).nodes.map Prod.fst ∧
    e.target ∈ (create_graphml kexts).nodes.map Prod.fst :=
  (create_graphml_wf kexts).2.2 e he

/-- Record depending on `com.w.a` and on the dangling id `com.w.ghost`. -/
def c2RecB : KextRecord :=
  { path := "b", bundle_id := "com.w.b", name := .str "", version := .str "",
    executable := .str "", kext_name := "b", source_type := "kext",
    dependencies := [.str "com.w.a", .str "com.w.ghost"], libraries := [],
    iokit_classes := [], provides := [] }

/-- Record with no references. -/
def c2RecA : KextRecord :=
  { path := "a", bundle_id := "com.w.a", name := .str "", version := .str "",
    executable := .str "", kext_name := "a", source_type := "kext",
    dependencies := [], libraries := [], iokit_classes := [], provides := [] }

/-- Input with one valid and one dangling reference. -/
def c2Kexts : List (String × KextRecord) := [("com.w.a", c2RecA), ("com.w.b", c2RecB)]

theorem c2_edge_endpoints_in_nodes_witness :
    ({ source := "com.w.b", target := "com.w.a", kind := .depends } : Edge)
        ∈ (create_graphml c2Kexts).edges ∧
    "com.w.b" ∈ (create_graphml c2Kexts).nodes.map Prod.fst ∧
    "com.w.a" ∈ (create_graphml c2Kexts).nodes.map Prod.fst :=
  ⟨by decide,
    c2_edge_endpoints_in_nodes c2Kexts
      { source := "com.w.b", target := "com.w.a", kind := .depends } (by decide)⟩

/-- Reference rule list written from the specification text of the
categorizer: ordered (predicate, category) pairs over the lowered name and
lowered bundle id, to be evaluated by first match. -/
def specRules : List ((String → String → Bool) × Category) :=
  [(fun name _ => inStr "graphics" name || inStr "metal" name || inStr "gpu" name || inStr "framebuffer" name, .graphics),
   (fun name bl => inStr "audio" name || inStr "hda" bl, .audio),
   (fun name bl => inStr "usb" name || inStr "usb" bl, .usb),
   (fun name bl => inStr "bluetooth" name || inStr "bt" bl, .bluetooth),
   (fun _ bl => inStr "apple" bl, .apple_specific),
   (fun name bl => inStr "intel" name || inStr "intel" bl, .intel),
   (fun name _ => inStr "amd" name, .amd)]

/-- First-match evaluation of an ordered rule list, defaulting to
`other`. -/
def firstMatch : List ((String → String → Bool) × Category) → String → String → Category
  | [], _, _ => .other
  | r :: rs, name, bl => if r.1 name bl then r.2 else firstMatch rs name bl

/-- C3: the categorizer is total into the fixed 8-value enumeration,
agrees with first-match evaluation of the ordered rule list of the spec,
and classifies name "Intel USB Controller" with bundle id
"com.example.usb" as usb (rule 3 precedes rule 6), not intel. -/
theorem c3_categorizer_total_first_match :
    (∀ bundle_id nameRaw, categorize bundle_id nameRaw ∈ allCategories) ∧
    (∀ bundle_id nameRaw, categorize bundle_id nameRaw =
      firstMatch specRules (strLower nameRaw) (strLower bundle_id)) ∧
    categorize "com.example.usb" "Intel USB Controller" = .usb := by
  refine ⟨?_, ?_, ?_⟩
  · intro b n
    cases h : categorize b n <;> simp [allCategories]
  · intro b n
    rfl
  · rfl

/-- C4: the three id sets of the diff engine partition the union of the
two datasets' id sets: their union is `ids a ∪ ids b` and they are
pairwise disjoint, for all datasets including empty ones. -/
theorem c4_diff_partition (a b : List (String × JKext)) (k : String) :
    ((k ∈ commonBundles a b ∨ k ∈ onlyInA a b ∨ k ∈ onlyInB a b) ↔
      (k ∈ idsOf a ∨ k ∈ idsOf b)) ∧
    ¬(k ∈ commonBundles a b ∧ k ∈ onlyInA a b) ∧
    ¬(k ∈ commonBundles a b ∧ k ∈ onlyInB a b) ∧
    ¬(k ∈ onlyInA a b ∧ k ∈ onlyInB a b) := by
  simp only [commonBundles, onlyInA, onlyInB, List.mem_filter, decide_eq_true_eq]
  tauto

/-- C5: the requirement and library fields coerce by shape — a mapping
yields its keys in encounter order, a sequence is used as-is, any other
shape (including a missing field) yields the empty sequence — and a
successfully normalized record carries exactly these coercions in its
dependencies and libraries fields. -/
theorem c5_dual_shape_coercion (v : Option PValue) (path : String)
    (data : List (String × PValue)) (r : KextRecord) :
    (∀ kvs, v = some (.dict kvs) → coerceSeqField v = kvs.map (fun kv => PValue.str kv.1)) ∧
    (∀ xs, v = some (.arr xs) → coerceSeqField v = xs) ∧
    ((∀ kvs, v ≠ some (.dict kvs)) → (∀ xs, v ≠ some (.arr xs)) → coerceSeqField v = []) ∧
    (parse_plist_file path (.dict data) = some r →
      r.dependencies = coerceSeqField (data.lookup "OSBundleRequirements") ∧
      r.libraries = coerceSeqField (data.lookup "OSBundleLibraries")) := by
  refine ⟨?_, ?_, ?_, ?_⟩
  · rintro kvs rfl; rfl
  · rintro xs rfl; rfl
  · intro h1 h2
    match v with
    | none => rfl
    | some (.str s) => rfl
    | some (.int n) => rfl
    | some (.bool b) => rfl
    | some (.dict kvs) => exact absurd rfl (h1 kvs)
    | some (.arr xs) => exact absurd rfl (h2 xs)
  · simp only [parse_plist_file]
    cases bundleIdField (List.lookup "CFBundleIdentifier" data) with
    | none => intro hp; exact absurd hp (by simp)
    | some bid =>
      cases iokitClasses (List.lookup "IOKitPersonalities" data) with
      | none => intro hp; exact absurd hp (by simp)
      | some cls =>
        intro hp
        injection hp with h
        subst h
        exact ⟨rfl, rfl⟩

/-- Raw descriptor with a sequence-shaped requirement field. -/
def c5Data : List (String × PValue) :=
  [("CFBundleIdentifier", .str "com.x.a"),
   ("OSBundleRequirements", .arr [.str "k1"])]

/-- The record `parse_plist_file` produces from `c5Data`. -/
def c5Rec : KextRecord :=
  { path := "p", bundle_id := "com.x.a", name := .str "", version := .str "",
    executable := .str "", kext_name := "a", source_type := "kext",
    dependencies := [.str "k1"], libraries := [], iokit_classes := [], provides := [] }

theorem c5_dual_shape_coercion_witness :
    coerceSeqField (some (.dict [("a", PValue.int 1), ("b", PValue.int 2)])) =
      [PValue.str "a", PValue.str "b"] ∧
    c5Rec.dependencies = coerceSeqField (c5Data.lookup "OSBundleRequirements") :=
  ⟨(c5_dual_shape_coercion (some (.dict [("a", PValue.int 1), ("b", PValue.int 2)]))
      "p" c5Data c5Rec).1 _ rfl,
   ((c5_dual_shape_coercion (some (.dict [("a", PValue.int 1), ("b", PValue.int 2)]))
      "p" c5Data c5Rec).2.2.2 rfl).1⟩

theorem lookup_insertRecord (m : List (String × KextRecord)) (k : String) (v : KextRecord) :
    (insertRecord m k v).lookup k = some v := by
  induction m with
  | nil => simp [insertRecord, List.lookup]
  | cons p rest ih =>
    obtain ⟨pk, pv⟩ := p
    by_cases h : pk = k
    · subst h
      simp [insertRecord, List.lookup]
    · have hf : (k == pk) = false := beq_eq_false_iff_ne.mpr (Ne.symm h)
      simp [insertRecord, List.lookup, h, hf, ih]

theorem keys_insertRecord (m : List (String × KextRecord)) (k : String) (v : KextRecord) :
    (insertRecord m k v).map Prod.fst =
      if k ∈ m.map Prod.fst then m.map Prod.fst else m.map Prod.fst ++ [k] := by
  induction m with
  | nil => simp [insertRecord]
  | cons p rest ih =>
    obtain ⟨pk, pv⟩ := p
    by_cases h : pk = k
    · subst h
      simp [insertRecord]
    · by_cases h2 : k ∈ rest.map Prod.fst <;>
        simp [insertRecord, h, ih, h2, Ne.symm h]

theorem nodup_keys_insertRecord (m : List (String × KextRecord)) (k : String) (v : KextRecord)
    (h : (m.map Prod.fst).Nodup) : ((insertRecord m k v).map Prod.fst).Nodup := by
  rw [keys_insertRecord]
  split
  · exact h
  · rename_i hk
    simp [List.nodup_append, h, hk]

theorem count_keys_insertRecord (m : List (String × KextRecord)) (k : String) (v : KextRecord)
    (h : (m.map Prod.fst).Nodup) : ((insertRecord m k v).map Prod.fst).count k = 1 := by
  rw [keys_insertRecord]
  split
  · rename_i hk
    exact List.count_eq_one_of_mem h hk
  · rename_i hk
    rw [List.count_append]
    simp [List.count_eq_zero.mpr hk]

theorem scan_keys_nodup :
    ∀ (ps : List (String × PValue)) (acc : List (String × KextRecord)),
      (acc.map Prod.fst).Nodup → ((ps.foldl scanStep acc).map Prod.fst).Nodup
  | [], _, h => h
  | p :: rest, acc, h =>
    scan_keys_nodup rest (scanStep acc p) (by
      unfold scanStep
      cases parse_plist_file p.1 p.2 with
      | none => exact h
      | some r =>
        by_cases hb : r.bundle_id = ""
        · simpa [hb] using h
        · simpa [hb] using nodup_keys_insertRecord acc r.bundle_id r h)

/-- C6: scanning a collection whose last two items normalize to records
sharing one non-empty bundle id leaves exactly one node under that id,
and that node is the later record (last write wins). -/
theorem c6_last_write_wins (ps : List (String × PValue)) (q1 q2 : String × PValue)
    (r1 r2 : KextRecord)
    (h1 : parse_plist_file q1.1 q1.2 = some r1)
    (h2 : parse_plist_file q2.1 q2.2 = some r2)
    (hb : r1.bundle_id = r2.bundle_id)
    (hne : r2.bundle_id ≠ "") :
    ((scan_kexts_only (ps ++ [q1, q2])).map Prod.fst).count r2.bundle_id = 1 ∧
    (scan_kexts_only (ps ++ [q1, q2])).lookup r2.bundle_id = some r2 := by
  have hne1 : r1.bundle_id ≠ "" := by rw [hb]; exact hne
  have e1 : ∀ acc, scanStep acc q1 = insertRecord acc r2.bundle_id r1 := by
    intro acc
    unfold scanStep
    rw [h1]
    simp [hne1, hne, hb]
  have e2 : ∀ acc, scanStep acc q2 = insertRecord acc r2.bundle_id r2 := by
    intro acc
    unfold scanStep
    rw [h2]
    simp [hne]
  have hscan : scan_kexts_only (ps ++ [q1, q2]) =
      insertRecord (insertRecord (scan_kexts_only ps) r2.bundle_id r1) r2.bundle_id r2 := by
    unfold scan_kexts_only
    rw [List.foldl_append]
    simp only [List.foldl_cons, List.foldl_nil, e1, e2]
  have hnd : ((insertRecord (scan_kexts_only ps) r2.bundle_id r1).map Prod.fst).Nodup :=
    nodup_keys_insertRecord _ _ _ (scan_keys_nodup ps [] (by simp))
  rw [hscan]
  exact ⟨count_keys_insertRecord _ _ _ hnd, lookup_insertRecord _ _ _⟩

/-- Earlier raw descriptor for bundle id com.x.d. -/
def c6Q1 : String × PValue :=
  ("p1", .dict [("CFBundleIdentifier", .str "com.x.d"), ("CFBundleVersion", .str "1")])

/-- Later raw descriptor for the same bundle id. -/
def c6Q2 : String × PValue :=
  ("p2", .dict [("CFBundleIdentifier", .str "com.x.d"), ("CFBundleVersion", .str "2")])

/-- Record normalized from `c6Q1`. -/
def c6R1 : KextRecord :=
  { path := "p1", bundle_id := "com.x.d", name := .str "", version := .str "1",
    executable := .str "", kext_name := "d", source_type := "kext",
    dependencies := [], libraries := [], iokit_classes := [], provides := [] }

/-- Record normalized from `c6Q2`. -/
def c6R2 : KextRecord :=
  { path := "p2", bundle_id := "com.x.d", name := .str "", version := .str "2",
    executable := .str "", kext_name := "d", source_type := "kext",
    dependencies := [], libraries := [], iokit_classes := [], provides := [] }

theorem c6_last_write_wins_witness :
    ((scan_kexts_only ([] ++ [c6Q1, c6Q2])).map Prod.fst).count c6R2.bundle_id = 1 ∧
    (scan_kexts_only ([] ++ [c6Q1, c6Q2])).lookup c6R2.bundle_id = some c6R2 :=
  c6_last_write_wins [] c6Q1 c6Q2 c6R1 c6R2 rfl rfl rfl (by decide)

/-- Number of records of a dataset whose (defaulted) version equals `w`. -/
def countVersion (ks : List JKext) (w : String) : Nat :=
  (ks.filter (fun k => decide (versionOf k = w))).length

theorem lookupCount_bumpAssoc (acc : List (String × Nat)) (v w : String) :
    lookupCount (bumpAssoc acc v) w = lookupCount acc w + (if w = v then 1 else 0) := by
  induction acc with
  | nil =>
    by_cases h : w = v
    · subst h
      simp [bumpAssoc, lookupCount]
    · simp [bumpAssoc, lookupCount, h, Ne.symm h]
  | cons p rest ih =>
    obtain ⟨pk, n⟩ := p
    by_cases h : pk = v
    · subst h
      by_cases h2 : pk = w
      · subst h2
        simp [bumpAssoc, lookupCount]
      · have h3 : ¬ w = pk := fun hh => h2 hh.symm
        simp [bumpAssoc, lookupCount, h2, h3]
    · by_cases h2 : pk = w
      · subst h2
        have hwv : ¬ pk = v := h
        simp [bumpAssoc, lookupCount, h, hwv]
      · simp [bumpAssoc, lookupCount, h, h2, ih]

theorem lookupCount_versionTally_aux :
    ∀ (ks : List JKext) (acc : List (String × Nat)) (w : String),
      lookupCount (ks.foldl (fun a k => bumpAssoc a (versionOf k)) acc) w =
        lookupCount acc w + countVersion ks w
  | [], acc, w => by simp [countVersion]
  | k :: rest, acc, w => by
    simp only [List.foldl_cons]
    rw [lookupCount_versionTally_aux rest (bumpAssoc acc (versionOf k)) w,
      lookupCount_bumpAssoc]
    have hcv : countVersion (k :: rest) w =
        countVersion rest w + (if w = versionOf k then 1 else 0) := by
      unfold countVersion
      by_cases h : w = versionOf k
      · simp [List.filter_cons, h]
      · have h2 : ¬ versionOf k = w := fun hh => h hh.symm
        simp [List.filter_cons, h, h2]
    rw [hcv]
    omega

/-- C7: the version histogram counts the frequency of each record's
version (a missing version counts under "N/A"), reports at most the five
highest-count entries, and orders ties by first encounter; over versions
1.0, 1.0, 2.0 the top entry is (1.0, 2) before (2.0, 1). -/
theorem c7_version_histogram :
    (∀ (ks : List JKext) (w : String), lookupCount (versionTally ks) w = countVersion ks w) ∧
    (∀ (data : List (String × JKext)), (analyze_kexts data).top_versions.length ≤ 5) ∧
    versionOf { version := none } = "N/A" ∧
    (analyze_kexts [("a", { version := some "1.0" }), ("b", { version := some "1.0" }),
        ("c", { version := some "2.0" })]).top_versions = [("1.0", 2), ("2.0", 1)] ∧
    (analyze_kexts [("a", { version := some "2.0" }),
        ("b", { version := some "1.0" })]).top_versions = [("2.0", 1), ("1.0", 1)] := by
  refine ⟨?_, ?_, rfl, rfl, rfl⟩
  · intro ks w
    have h := lookupCount_versionTally_aux ks [] w
    simpa [versionTally, lookupCount] using h
  · intro data
    simp only [analyze_kexts]
    rw [List.length_take]
    exact Nat.min_le_left _ _

/-- C8: a raw mapping that fails normalization is dropped by the scan and
every other item is still processed: the scan with the malformed item
present equals the scan of the remaining items, so one malformed bundle
never aborts the pass. -/
theorem c8_malformed_item_skipped (xs ys : List (String × PValue)) (bad : String × PValue)
    (h : parse_plist_file bad.1 bad.2 = none) :
    scan_kexts_only (xs ++ bad :: ys) = scan_kexts_only (xs ++ ys) := by
  unfold scan_kexts_only
  rw [List.foldl_append, List.foldl_append, List.foldl_cons]
  congr 1
  unfold scanStep
  rw [h]

/-- Well-formed raw descriptor, first. -/
def c8Good1 : String × PValue := ("p1", .dict [("CFBundleIdentifier", .str "com.x.g1")])

/-- Well-formed raw descriptor, second. -/
def c8Good2 : String × PValue := ("p2", .dict [("CFBundleIdentifier", .str "com.x.g2")])

/-- Malformed raw descriptor: the decoded top level is not a mapping. -/
def c8Bad : String × PValue := ("pb", .str "oops")

theorem c8_malformed_item_skipped_witness :
    scan_kexts_only ([c8Good1] ++ c8Bad :: [c8Good2]) =
      scan_kexts_only ([c8Good1] ++ [c8Good2]) :=
  c8_malformed_item_skipped [c8Good1] [c8Good2] c8Bad rfl

theorem tallySum_bumpCat (t : Category → Nat) (c : Category) :
    tallySum (bumpCat t c) = tallySum t + 1 := by
  cases c <;> simp [tallySum, allCategories, bumpCat] <;> omega

theorem tallySum_catTally_aux :
    ∀ (data : List (String × JKext)) (t : Category → Nat),
      tallySum (data.foldl (fun t2 p => bumpCat t2 (categorizeEntry p.1 p.2)) t) =
        tallySum t + data.length
  | [], t => by simp
  | p :: rest, t => by
    simp only [List.foldl_cons, List.length_cons]
    rw [tallySum_catTally_aux rest _, tallySum_bumpCat]
    omega

/-- C9: the per-category counts of the dataset analysis sum, over all 8
categories, to the total number of records: the category tally partitions
the record set. -/
theorem c9_category_partition (data : List (String × JKext)) :
    tallySum ((analyze_kexts data).categories) = (analyze_kexts data).total := by
  simp only [analyze_kexts]
  unfold catTally
  rw [tallySum_catTally_aux data (fun _ => 0)]
  simp [tallySum, allCategories]

/-- Raw descriptor whose personalities map one key to a string containing
the substring IOClass, next to a perfectly well-formed personality. -/
def c10Data : PValue :=
  .dict [("CFBundleIdentifier", .str "com.x.bad"),
    ("IOKitPersonalities", .dict
      [("P1", .str "SomeIOClassString"),
       ("P2", .dict [("IOClass", .str "GoodClass")])])]

/-- The same descriptor with the malformed personality entry removed. -/
def c10DataWithoutBad : PValue :=
  .dict [("CFBundleIdentifier", .str "com.x.bad"),
    ("IOKitPersonalities", .dict
      [("P2", .dict [("IOClass", .str "GoodClass")])])]

/-- C10: a personalities entry whose value is a string containing the
substring IOClass makes normalization of the entire record fail (the
membership test hits, then the attribute access raises), so the record is
dropped; with only that entry removed the same record normalizes fine, so
the single entry is not merely skipped. -/
theorem c10_personality_string_drops_record :
    parse_plist_file "p" c10Data = none ∧
    parse_plist_file "p" c10DataWithoutBad = some
      { path := "p", bundle_id := "com.x.bad", name := .str "", version := .str "",
        executable := .str "", kext_name := "bad", source_type := "kext",
        dependencies := [], libraries := [], iokit_classes := [.str "GoodClass"],
        provides := [] } :=
  ⟨rfl, rfl⟩

end KextViz
